import Mathlib

/-!
Verification of `find-port-by-pid` (`src/index.ts`).

The library exports one function, `findPortByPid(pid)`, which validates the
pid, dispatches on the host platform, and resolves the set of TCP ports bound
by the process:

* Windows: runs a PowerShell `Get-NetTCPConnection` query and returns the
  trimmed non-blank output lines;
* macOS: runs `lsof -i -P -n | grep -w pid` and scans each output line's
  whitespace-delimited tokens for `address:port` shapes;
* Linux: reads `/proc/<pid>/fd` to collect socket inodes, then joins them
  against the rows of `/proc/net/tcp` and `/proc/net/tcp6`.

The shallow embedding below models the JavaScript string primitives used by
the code (`split`, `trim`, `parseInt(·, 16)`, regexes) as structurally
recursive functions on `List Char` (ASCII whitespace suffices for every
property considered here), and models the I/O environment (exec results, the
`/proc` file system view) as explicit data passed to the functions.
-/

namespace FindPortByPid

/-! ## JavaScript string primitives -/

/-- ASCII whitespace, the fragment of the JS `\s` class relevant here. -/
def isWsChar (c : Char) : Bool :=
  c = ' ' || c = '\t' || c = '\n' || c = '\r' || c = '\x0b' || c = '\x0c'

/-- JS `String.prototype.trim` (ASCII fragment). -/
def jsTrim (s : String) : String :=
  String.mk (((s.data.dropWhile isWsChar).reverse.dropWhile isWsChar).reverse)

/-- Worker for `jsSplitOnChar`. -/
def splitOnCharGo (sep : Char) : List Char → List Char → List String
  | [], acc => [String.mk acc.reverse]
  | c :: rest, acc =>
    if c = sep then String.mk acc.reverse :: splitOnCharGo sep rest []
    else splitOnCharGo sep rest (c :: acc)

/-- JS `s.split(sep)` for a single-character separator (used with `'\n'`
and `':'` by the source). -/
def jsSplitOnChar (sep : Char) (s : String) : List String :=
  splitOnCharGo sep s.data []

/-- Worker for `jsSplitWs`: splits at maximal runs of whitespace, like the JS
regex split `s.split(/\s+/)`.  The flag records whether the previous character
was part of a separator run that has already emitted a fragment. -/
def splitWsGo : List Char → List Char → Bool → List String
  | [], acc, _ => [String.mk acc.reverse]
  | c :: rest, acc, prevWs =>
    if isWsChar c then
      if prevWs then splitWsGo rest acc true
      else String.mk acc.reverse :: splitWsGo rest [] true
    else splitWsGo rest (c :: acc) false

/-- JS `s.split(/\s+/)` (ASCII whitespace fragment). -/
def jsSplitWs (s : String) : List String :=
  splitWsGo s.data [] false

/-- Value of one hexadecimal digit character (`0-9`, `a-f`, `A-F`). -/
def hexDigitVal (c : Char) : Option Nat :=
  let n := c.toNat
  if 48 ≤ n ∧ n ≤ 57 then some (n - 48)
  else if 97 ≤ n ∧ n ≤ 102 then some (n - 87)
  else if 65 ≤ n ∧ n ≤ 70 then some (n - 55)
  else none

/-- Base-16 value of a list of hex digit characters (most significant first). -/
def hexVal (cs : List Char) : Nat :=
  cs.foldl (fun a c => a * 16 + (hexDigitVal c).getD 0) 0

/-- JS `parseInt(s, 16)`: skip leading whitespace, optional sign, optional
`0x`/`0X` prefix, then the longest prefix of hex digits; `none` models `NaN`. -/
def jsParseIntHex (s : String) : Option Int :=
  let cs := s.data.dropWhile isWsChar
  let sign : Int := if cs.headD ' ' = '-' then -1 else 1
  let cs1 := if cs.headD ' ' = '-' || cs.headD ' ' = '+' then cs.tail else cs
  let cs2 :=
    if cs1.headD ' ' = '0' && (cs1.tail.headD ' ' = 'x' || cs1.tail.headD ' ' = 'X')
    then cs1.tail.tail else cs1
  let digits := cs2.takeWhile (fun c => (hexDigitVal c).isSome)
  if digits.isEmpty then none
  else some (sign * (hexVal digits : Int))

/-- JS `parseInt(s, 16).toString()`. -/
def jsParseIntHexDec (s : String) : String :=
  match jsParseIntHex s with
  | some i => toString i
  | none => "NaN"

/-- Join string fragments back with `':'` between them. -/
def joinWithColon : List String → String
  | [] => ""
  | [s] => s
  | s :: rest => s ++ ":" ++ joinWithColon rest

/-- JS `s.substring(s.indexOf(':') + 1)` guarded by `s.indexOf(':') !== -1`:
the text after the *first* colon, or `none` when the string has no colon. -/
def afterFirstColon (s : String) : Option String :=
  match jsSplitOnChar ':' s with
  | [] => none
  | [_] => none
  | _ :: rest => some (joinWithColon rest)

/-! ## Accumulate-with-dedup (the `if (!ports.includes(p)) ports.push(p)`
pattern and JS `Set` insertion, both of which keep first occurrences) -/

/-- Append `q` unless it is already present. -/
def dedupPush (ports : List String) (q : String) : List String :=
  if q ∈ ports then ports else ports ++ [q]

/-- One step of scanning: extract with `f`, push with dedup on success. -/
def dedupStep {α : Type} (f : α → Option String) (ports : List String) (x : α) :
    List String :=
  match f x with
  | some q => dedupPush ports q
  | none => ports

/-- Scan `l`, extracting a string from each element with `f` and collecting
the results without duplicates, starting from `acc`. -/
def collectDedup {α : Type} (f : α → Option String) (l : List α)
    (acc : List String) : List String :=
  l.foldl (dedupStep f) acc

/-- JS `Array.from(new Set(l))`: first-occurrence deduplication. -/
def jsSetDedup (l : List String) : List String :=
  collectDedup some l []

/-! ## The modelled I/O environment -/

/-- The value of `os.platform()`. -/
inductive JsPlatform where
  | win32
  | darwin
  | linux
  | other (name : String)

/-- Outcome of one `exec` call: the `error` argument of the callback (its
`message` when non-null), plus captured `stdout` and `stderr`. -/
structure ExecResult where
  error : Option String
  stdout : String
  stderr : String

/-- The Linux path's view of the `/proc` file system for the target pid:
the result of `readdir('/proc/<pid>/fd')` (`Except` models a thrown error),
the per-descriptor `readlink` outcomes (`none` models a thrown error), and
the contents of `/proc/net/tcp` and `/proc/net/tcp6` (`none` models a
failed `readFile`). -/
structure LinuxEnv where
  fdList : Except String (List String)
  readlink : String → Option String
  tcp : Option String
  tcp6 : Option String

/-- The full host environment a call runs against. -/
structure HostEnv where
  plat : JsPlatform
  winExec : ExecResult
  darwinExec : ExecResult
  linux : LinuxEnv

/-! ## Windows path (`src/index.ts` lines 18-36) -/

/-- Callback body of the Windows branch: reject with `stderr || error.message`
on failure, otherwise split the trimmed stdout into trimmed non-blank lines. -/
def windowsResolve (r : ExecResult) : Except String (Option (List String)) :=
  match r.error with
  | some message => .error (if r.stderr = "" then message else r.stderr)
  | none =>
    let trimmed := jsTrim r.stdout
    if trimmed = "" then .ok none
    else
      let ports := ((jsSplitOnChar '\n' trimmed).map jsTrim).filter (fun s => s ≠ "")
      .ok (if ports.isEmpty then none else some ports)

/-! ## macOS path (`src/index.ts` lines 37-69) -/

/-- Port candidate extracted from one whitespace-delimited token: if the token
contains a colon, take the text after its last colon (`part.split(':').pop()`),
and accept it only if it is non-empty and all decimal digits (`/^\d+$/`). -/
def tokenPort (part : String) : Option String :=
  if part.data.any (fun c => c = ':') then
    let maybePort := (jsSplitOnChar ':' part).getLastD ""
    if maybePort ≠ "" ∧ maybePort.data.all Char.isDigit then some maybePort else none
  else none

/-- The nested loop of the macOS branch: for each line of the (already
trimmed) output, scan its whitespace-delimited tokens, collecting accepted
ports without duplicates. -/
def darwinScanPorts (trimmed : String) : List String :=
  (jsSplitOnChar '\n' trimmed).foldl
    (fun ports line => collectDedup tokenPort (jsSplitWs line) ports) []

/-- Callback body of the macOS branch: any exec failure resolves to `null`;
otherwise scan the trimmed output. -/
def darwinResolve (r : ExecResult) : Except String (Option (List String)) :=
  match r.error with
  | some _ => .ok none
  | none =>
    let trimmed := jsTrim r.stdout
    if trimmed = "" then .ok none
    else
      let ports := darwinScanPorts trimmed
      .ok (if ports.isEmpty then none else some ports)

/-! ## Linux path (`src/index.ts` lines 70-157) -/

/-- The regex match `link.match(/^socket:\[(\d+)\]$/)`, returning the
captured inode digits. -/
def socketInodeOfLink (link : String) : Option String :=
  match link.data with
  | 's' :: 'o' :: 'c' :: 'k' :: 'e' :: 't' :: ':' :: '[' :: rest =>
    let digitsPart := rest.takeWhile Char.isDigit
    let tl := rest.dropWhile Char.isDigit
    if digitsPart ≠ [] ∧ tl = [']'] then some (String.mk digitsPart) else none
  | _ => none

/-- Socket inode contributed by one descriptor: `readlink` it (a failure is
skipped) and match the socket pattern. -/
def fdInode (env : LinuxEnv) (file : String) : Option String :=
  (env.readlink file).bind socketInodeOfLink

/-- `getSocketInodesForPid`: list `/proc/<pid>/fd` (a failure aborts with
`Unable to read fd directory: ...`), then collect the socket inodes of the
resolvable descriptors into a set (first-occurrence order, no duplicates). -/
def getSocketInodesForPid (env : LinuxEnv) : Except String (List String) :=
  match env.fdList with
  | .error msg => .error ("Unable to read fd directory: " ++ msg)
  | .ok files => .ok (collectDedup (fdInode env) files [])

/-- The data rows of a `/proc/net/tcp(6)` file: every line after the header
line (`for (let i = 1; ...)`); `none` (unreadable file) contributes none. -/
def tableDataLines : Option String → List String
  | none => []
  | some c => (jsSplitOnChar '\n' c).drop 1

/-- Processing of one connection-table line: trim it, skip it if blank or if
it has fewer than 10 whitespace-delimited fields, join on the inode in field 9
against the inode set, and on a match decode the hex port after the colon of
the local address in field 1 (`parseInt(portHex, 16).toString()`). -/
def rowJoin (inodeSet : List String) (rawLine : String) : Option String :=
  let line := jsTrim rawLine
  if line = "" then none
  else
    let parts := jsSplitWs line
    if parts.length < 10 then none
    else if parts.getD 9 "" ∈ inodeSet then
      match afterFirstColon (parts.getD 1 "") with
      | some portHex => some (jsParseIntHexDec portHex)
      | none => none
    else none

/-- `getPortsFromProcNet`: an unreadable file yields `[]`; otherwise process
every data row, collecting decoded ports of matching rows without duplicates. -/
def getPortsFromProcNet (content : Option String) (inodeSet : List String) :
    List String :=
  match content with
  | none => []
  | some c => collectDedup (rowJoin inodeSet) ((jsSplitOnChar '\n' c).drop 1) []

/-- The Linux branch of `findPortByPid`: collect the inode set (propagating
its failure wrapped as `Error reading Linux network info: ...`), return `null`
for an empty set, otherwise join both tables and dedup the union. -/
def findPortByPidLinux (env : LinuxEnv) : Except String (Option (List String)) :=
  match getSocketInodesForPid env with
  | .error msg => .error ("Error reading Linux network info: " ++ msg)
  | .ok inodeSet =>
    if inodeSet.isEmpty then .ok none
    else
      let tcpPorts := getPortsFromProcNet env.tcp inodeSet
      let tcp6Ports := getPortsFromProcNet env.tcp6 inodeSet
      let allPorts := jsSetDedup (tcpPorts ++ tcp6Ports)
      .ok (if allPorts.isEmpty then none else some allPorts)

/-! ## Well-formedness of platform data

The code performs no range or format validation on the port text it
extracts.  The following decidable predicates describe the inputs on which
the advertised port-range invariant does hold: canonical decimal port tokens
at most `65535` in the tool output consumed by the Windows and macOS paths,
and local-address port fields of at most four hex digits in the Linux
connection tables. -/

/-- Decimal value of a digit string. -/
def decDigitsVal (s : String) : Nat :=
  s.data.foldl (fun n c => n * 10 + (c.toNat - 48)) 0

/-- `s` is the canonical decimal rendering of a number `≤ 65535`. -/
def canonPortOk (s : String) : Bool :=
  decide (s = toString (decDigitsVal s)) && decide (decDigitsVal s ≤ 65535)

/-- Every line the Windows branch would keep is a canonical in-range port. -/
def winExecOk (r : ExecResult) : Bool :=
  (((jsSplitOnChar '\n' (jsTrim r.stdout)).map jsTrim).filter (fun s => s ≠ "")).all
    canonPortOk

/-- Every token the macOS scanner would accept is a canonical in-range port. -/
def darwinExecOk (r : ExecResult) : Bool :=
  (jsSplitOnChar '\n' (jsTrim r.stdout)).all fun line =>
    (jsSplitWs line).all fun part =>
      match tokenPort part with
      | some p => canonPortOk p
      | none => true

/-- The hex port field is non-empty, all hex digits, and at most 4 digits. -/
def hexOk (hex : String) : Bool :=
  !hex.data.isEmpty && hex.data.all (fun c => (hexDigitVal c).isSome)
    && decide (hex.data.length ≤ 4)

/-- The local-address port field of one table line is well formed (vacuously
true when the line has no colon in field 1; such a line yields no port). -/
def rowHexOk (line : String) : Bool :=
  match afterFirstColon ((jsSplitWs (jsTrim line)).getD 1 "") with
  | some hex => hexOk hex
  | none => true

/-- All data rows of a connection table are well formed. -/
def tableOk (content : Option String) : Bool :=
  (tableDataLines content).all rowHexOk

/-- Both Linux connection tables are well formed. -/
def linuxEnvOk (env : LinuxEnv) : Bool :=
  tableOk env.tcp && tableOk env.tcp6

/-- The data the selected platform path consumes is well formed. -/
def envOk (env : HostEnv) : Bool :=
  match env.plat with
  | .win32 => winExecOk env.winExec
  | .darwin => darwinExecOk env.darwinExec
  | .linux => linuxEnvOk env.linux
  | .other _ => true

/-! ## The public dispatcher (`src/index.ts` lines 11-88) -/

/-- `findPortByPid`.  The JS `number` argument is modelled as a rational:
`Number.isInteger pid` becomes `pid.den = 1`, and `pid <= 0` is `pid ≤ 0`.
An invalid pid is rejected before the environment is consulted. -/
def findPortByPid (pid : Rat) (env : HostEnv) : Except String (Option (List String)) :=
  if ¬ pid.den = 1 ∨ pid ≤ 0 then .error "Invalid PID"
  else
    match env.plat with
    | .win32 => windowsResolve env.winExec
    | .darwin => darwinResolve env.darwinExec
    | .linux => findPortByPidLinux env.linux
    | .other name => .error ("Unsupported platform: " ++ name)

/-! ## Concrete fixtures used by witness theorems -/

/-- A trivial exec result, for the platforms a fixture does not exercise. -/
def noExec : ExecResult :=
  { error := none, stdout := "", stderr := "" }

/-- A trivial Linux view, for fixtures that do not exercise the Linux path. -/
def noLinux : LinuxEnv :=
  { fdList := .ok [], readlink := fun _ => none, tcp := none, tcp6 := none }

/-- A realistic connection-table row with local port `0x1F90 = 8080` and
inode `100` in field 9. -/
def row8080 : String :=
  " 0: 0100007F:1F90 00000000:0000 0A 00000000:00000000 00:00000000 00000000 1000 0 100"

/-- A row with local port `0x0016 = 22` and inode `200`. -/
def row22 : String :=
  " 1: 0100007F:0016 00000000:0000 0A 00000000:00000000 00:00000000 00000000 1000 0 200"

/-- A row with local port `0x0050 = 80` and non-matching inode `999`. -/
def row80 : String :=
  " 2: 0100007F:0050 00000000:0000 0A 00000000:00000000 00:00000000 00000000 1000 0 999"

/-- Linux fixture: three descriptors (two sockets, one unresolvable), a table
with two matching rows and one non-matching row, no IPv6 table. -/
def envJoin : LinuxEnv :=
  { fdList := .ok ["0", "1", "2"],
    readlink := fun f =>
      if f = "0" then some "socket:[100]"
      else if f = "1" then some "socket:[200]"
      else none,
    tcp := some ("header\n" ++ row8080 ++ "\n" ++ row22 ++ "\n" ++ row80 ++ "\n"),
    tcp6 := none }

/-- Windows fixture whose output is one canonical in-range port. -/
def envWin8080 : HostEnv :=
  { plat := .win32, winExec := { error := none, stdout := "8080", stderr := "" },
    darwinExec := noExec, linux := noLinux }

/-- Windows fixture whose output line is not a number at all. -/
def envWinAbc : HostEnv :=
  { plat := .win32, winExec := { error := none, stdout := "abc", stderr := "" },
    darwinExec := noExec, linux := noLinux }

/-- Windows fixture whose output repeats one port on two lines. -/
def envWinDup : HostEnv :=
  { plat := .win32, winExec := { error := none, stdout := "80\n80", stderr := "" },
    darwinExec := noExec, linux := noLinux }

/-- macOS fixture: two lines carrying the same port in different tokens. -/
def envDarwinDup : HostEnv :=
  { plat := .darwin, winExec := noExec,
    darwinExec := { error := none, stdout := "tcp 127.0.0.1:80\ntcp [::1]:80", stderr := "" },
    linux := noLinux }

/-- macOS fixture with the spec's example line. -/
def envDarwinListen : HostEnv :=
  { plat := .darwin, winExec := noExec,
    darwinExec := { error := none, stdout := "TCP 127.0.0.1:3000 (LISTEN)", stderr := "" },
    linux := noLinux }

/-- Linux fixture whose descriptor directory cannot be listed. -/
def envFdErr : LinuxEnv :=
  { fdList := .error "boom", readlink := fun _ => none, tcp := none, tcp6 := none }

/-- Linux fixture with one socket, one matching IPv4 row, and no IPv6 table. -/
def envNoTcp6 : LinuxEnv :=
  { fdList := .ok ["3"],
    readlink := fun _ => some "socket:[100]",
    tcp := some ("header\n" ++ row8080 ++ "\n"),
    tcp6 := none }

/-- A host fixture used where only validation behaviour matters. -/
def envPlain : HostEnv :=
  { plat := .linux, winExec := noExec, darwinExec := noExec, linux := noLinux }

deriving instance DecidableEq for Except

/-! ## Lemmas about the dedup-collect pattern -/

theorem mem_dedupPush {p q : String} {ports : List String} :
    p ∈ dedupPush ports q ↔ p ∈ ports ∨ p = q := by
  unfold dedupPush
  split_ifs with h
  · constructor
    · exact Or.inl
    · rintro (hp | rfl)
      · exact hp
      · exact h
  · simp [List.mem_append]

theorem nodup_dedupPush {q : String} {ports : List String} (h : ports.Nodup) :
    (dedupPush ports q).Nodup := by
  unfold dedupPush
  split_ifs with hq
  · exact h
  · simp [List.nodup_append, h, hq]

theorem mem_dedupStep {α : Type} {f : α → Option String} {p : String}
    {ports : List String} {x : α} :
    p ∈ dedupStep f ports x ↔ p ∈ ports ∨ f x = some p := by
  unfold dedupStep
  cases hfx : f x with
  | none => simp
  | some q => simp [mem_dedupPush, eq_comm]

theorem nodup_dedupStep {α : Type} {f : α → Option String} {ports : List String}
    {x : α} (h : ports.Nodup) : (dedupStep f ports x).Nodup := by
  unfold dedupStep
  cases f x with
  | none => exact h
  | some q => exact nodup_dedupPush h

theorem mem_collectDedup {α : Type} {f : α → Option String} {p : String} :
    ∀ {l : List α} {acc : List String},
      p ∈ collectDedup f l acc ↔ p ∈ acc ∨ ∃ x ∈ l, f x = some p := by
  intro l
  induction l with
  | nil => intro acc; simp [collectDedup]
  | cons x xs ih =>
    intro acc
    show p ∈ collectDedup f xs (dedupStep f acc x) ↔ _
    rw [ih, mem_dedupStep]
    simp only [List.mem_cons]
    constructor
    · rintro ((hp | hx) | ⟨y, hy, hfy⟩)
      · exact Or.inl hp
      · exact Or.inr ⟨x, Or.inl rfl, hx⟩
      · exact Or.inr ⟨y, Or.inr hy, hfy⟩
    · rintro (hp | ⟨y, hy | hy, hfy⟩)
      · exact Or.inl (Or.inl hp)
      · exact Or.inl (Or.inr (hy ▸ hfy))
      · exact Or.inr ⟨y, hy, hfy⟩

theorem nodup_collectDedup {α : Type} {f : α → Option String} :
    ∀ {l : List α} {acc : List String}, acc.Nodup → (collectDedup f l acc).Nodup := by
  intro l
  induction l with
  | nil => intro acc h; exact h
  | cons x xs ih =>
    intro acc h
    exact ih (nodup_dedupStep h)

theorem mem_jsSetDedup {p : String} {l : List String} :
    p ∈ jsSetDedup l ↔ p ∈ l := by
  simp [jsSetDedup, mem_collectDedup]

theorem nodup_jsSetDedup {l : List String} : (jsSetDedup l).Nodup :=
  nodup_collectDedup List.nodup_nil

theorem collectDedup_some_of_fresh :
    ∀ (l acc : List String), l.Nodup → (∀ x ∈ l, x ∉ acc) →
      collectDedup some l acc = acc ++ l := by
  intro l
  induction l with
  | nil => intro acc _ _; simp [collectDedup]
  | cons x xs ih =>
    intro acc hnd hfresh
    show collectDedup some xs (dedupStep some acc x) = _
    have hx : x ∉ acc := hfresh x (List.mem_cons_self x xs)
    have hstep : dedupStep some acc x = acc ++ [x] := by
      simp [dedupStep, dedupPush, hx]
    rw [hstep, ih (acc ++ [x]) hnd.of_cons]
    · simp
    · intro y hy
      simp only [List.mem_append, List.mem_singleton]
      rintro (hya | rfl)
      · exact hfresh y (List.mem_cons_of_mem _ hy) hya
      · exact (List.nodup_cons.mp hnd).1 hy

theorem jsSetDedup_eq_self {l : List String} (h : l.Nodup) : jsSetDedup l = l := by
  have := collectDedup_some_of_fresh l [] h (by simp)
  simpa [jsSetDedup] using this

/-! ## Characterizations of the Linux table join -/

theorem mem_getPortsFromProcNet {content : Option String} {inodes : List String}
    {p : String} :
    p ∈ getPortsFromProcNet content inodes ↔
      ∃ line ∈ tableDataLines content, rowJoin inodes line = some p := by
  cases content with
  | none => simp [getPortsFromProcNet, tableDataLines]
  | some c => simp [getPortsFromProcNet, tableDataLines, mem_collectDedup]

theorem nodup_getPortsFromProcNet {content : Option String} {inodes : List String} :
    (getPortsFromProcNet content inodes).Nodup := by
  cases content with
  | none => exact List.nodup_nil
  | some c => exact nodup_collectDedup List.nodup_nil

theorem rowJoin_nil {rawLine : String} : rowJoin [] rawLine = none := by
  simp only [rowJoin]
  split_ifs with h1 h2 h3
  · rfl
  · rfl
  · exact absurd h3 (List.not_mem_nil _)
  · rfl

theorem rowJoin_inv {inodeSet : List String} {rawLine p : String}
    (h : rowJoin inodeSet rawLine = some p) :
    ∃ portHex, afterFirstColon ((jsSplitWs (jsTrim rawLine)).getD 1 "") = some portHex ∧
      p = jsParseIntHexDec portHex := by
  simp only [rowJoin] at h
  split_ifs at h with h1 h2 h3
  cases hafc : afterFirstColon ((jsSplitWs (jsTrim rawLine)).getD 1 "") with
  | none => rw [hafc] at h; cases h
  | some hex =>
    rw [hafc] at h
    exact ⟨hex, rfl, (Option.some.inj h).symm⟩

/-! ## Characterizations of the macOS token scan -/

theorem mem_scanLines {p : String} :
    ∀ {lines acc : List String},
      p ∈ lines.foldl (fun ports line => collectDedup tokenPort (jsSplitWs line) ports) acc ↔
        p ∈ acc ∨ ∃ line ∈ lines, ∃ part ∈ jsSplitWs line, tokenPort part = some p := by
  intro lines
  induction lines with
  | nil => intro acc; simp
  | cons l ls ih =>
    intro acc
    rw [List.foldl_cons, ih, mem_collectDedup]
    simp only [List.mem_cons]
    constructor
    · rintro ((hp | ⟨part, hpart, hfp⟩) | ⟨line, hline, hrest⟩)
      · exact Or.inl hp
      · exact Or.inr ⟨l, Or.inl rfl, part, hpart, hfp⟩
      · exact Or.inr ⟨line, Or.inr hline, hrest⟩
    · rintro (hp | ⟨line, hline | hline, hrest⟩)
      · exact Or.inl (Or.inl hp)
      · exact Or.inl (Or.inr (hline ▸ hrest))
      · exact Or.inr ⟨line, hline, hrest⟩

theorem nodup_scanLines :
    ∀ {lines acc : List String}, acc.Nodup →
      (lines.foldl (fun ports line => collectDedup tokenPort (jsSplitWs line) ports) acc).Nodup := by
  intro lines
  induction lines with
  | nil => intro acc h; exact h
  | cons l ls ih =>
    intro acc h
    rw [List.foldl_cons]
    exact ih (nodup_collectDedup h)

theorem mem_darwinScanPorts {trimmed p : String} :
    p ∈ darwinScanPorts trimmed ↔
      ∃ line ∈ jsSplitOnChar '\n' trimmed, ∃ part ∈ jsSplitWs line,
        tokenPort part = some p := by
  unfold darwinScanPorts
  rw [mem_scanLines]
  simp

theorem nodup_darwinScanPorts {trimmed : String} : (darwinScanPorts trimmed).Nodup :=
  nodup_scanLines List.nodup_nil

theorem tokenPort_inv {part p : String} (h : tokenPort part = some p) :
    p = (jsSplitOnChar ':' part).getLastD "" ∧ p.data.all Char.isDigit = true := by
  simp only [tokenPort] at h
  split_ifs at h with h1 h2
  obtain rfl := Option.some.inj h
  exact ⟨rfl, h2.2⟩

/-! ## Hex decoding lemmas -/

theorem hexDigitVal_getD_lt (c : Char) : (hexDigitVal c).getD 0 < 16 := by
  simp only [hexDigitVal]
  split_ifs <;> simp <;> omega

theorem hexVal_aux (cs : List Char) (a : Nat) :
    cs.foldl (fun a c => a * 16 + (hexDigitVal c).getD 0) a < (a + 1) * 16 ^ cs.length := by
  induction cs generalizing a with
  | nil => simp [Nat.lt_succ_self a]
  | cons c cs ih =>
    calc cs.foldl (fun a c => a * 16 + (hexDigitVal c).getD 0)
            (a * 16 + (hexDigitVal c).getD 0)
        < (a * 16 + (hexDigitVal c).getD 0 + 1) * 16 ^ cs.length := ih _
      _ ≤ ((a + 1) * 16) * 16 ^ cs.length := by
          have := hexDigitVal_getD_lt c
          exact Nat.mul_le_mul_right _ (by omega)
      _ = (a + 1) * 16 ^ (cs.length + 1) := by ring

theorem hexVal_lt (cs : List Char) : hexVal cs < 16 ^ cs.length := by
  simpa [hexVal] using hexVal_aux cs 0

theorem ne_of_hexDigitVal_isSome {c d : Char} (h : (hexDigitVal c).isSome = true)
    (hd : hexDigitVal d = none) : c ≠ d := by
  rintro rfl
  rw [hd] at h
  cases h

theorem isWsChar_eq_false_of_hex {c : Char} (h : (hexDigitVal c).isSome = true) :
    isWsChar c = false := by
  have hge : 48 ≤ c.toNat := by
    simp only [hexDigitVal] at h
    split_ifs at h with h1 h2 h3
    · omega
    · omega
    · omega
    · cases h
  simp only [isWsChar, Bool.or_eq_false_iff, decide_eq_false_iff_not]
  refine ⟨⟨⟨⟨⟨?_, ?_⟩, ?_⟩, ?_⟩, ?_⟩, ?_⟩ <;>
    (rintro rfl; exact absurd hge (by decide))

theorem takeWhile_eq_self_of_all {p : Char → Bool} :
    ∀ {l : List Char}, (∀ c ∈ l, p c = true) → l.takeWhile p = l := by
  intro l
  induction l with
  | nil => intro _; rfl
  | cons c cs ih =>
    intro h
    have hc := h c (List.mem_cons_self c cs)
    have hcs := ih fun d hd => h d (List.mem_cons_of_mem _ hd)
    simp [List.takeWhile_cons, hc, hcs]

theorem jsParseIntHex_all_hex (s : String) (hne : s.data ≠ [])
    (hall : ∀ c ∈ s.data, (hexDigitVal c).isSome = true) :
    jsParseIntHex s = some (hexVal s.data : Int) := by
  rcases hd : s.data with _ | ⟨c, rest⟩
  · exact absurd hd hne
  have hc : (hexDigitVal c).isSome = true := by
    have := hall c
    rw [hd] at this
    exact this (List.mem_cons_self c rest)
  have hrest : ∀ d ∈ rest, (hexDigitVal d).isSome = true := by
    intro d hdr
    have := hall d
    rw [hd] at this
    exact this (List.mem_cons_of_mem _ hdr)
  have hws : isWsChar c = false := isWsChar_eq_false_of_hex hc
  have hminus : c ≠ '-' := ne_of_hexDigitVal_isSome hc (by decide)
  have hplus : c ≠ '+' := ne_of_hexDigitVal_isSome hc (by decide)
  have hx : rest.headD ' ' ≠ 'x' := by
    rcases rest with _ | ⟨d, ds⟩
    · decide
    · exact ne_of_hexDigitVal_isSome (hrest d (List.mem_cons_self d ds)) (by decide)
  have hX : rest.headD ' ' ≠ 'X' := by
    rcases rest with _ | ⟨d, ds⟩
    · decide
    · exact ne_of_hexDigitVal_isSome (hrest d (List.mem_cons_self d ds)) (by decide)
  have htake : (c :: rest).takeWhile (fun c => (hexDigitVal c).isSome) = c :: rest := by
    apply takeWhile_eq_self_of_all
    intro d hdm
    rcases List.mem_cons.mp hdm with rfl | hdm
    · exact hc
    · exact hrest d hdm
  simp only [jsParseIntHex, hd, List.dropWhile_cons, hws, Bool.false_eq_true, if_false,
    List.headD_cons, hminus, hplus, if_neg, Bool.or_self, List.tail_cons, hx, hX,
    htake, List.isEmpty_cons, decide_eq_true_eq]
  simp [hminus, hplus, hx, hX, htake]

/-! ## Decimal rendering lemmas (`Nat.repr` produces digit strings) -/

theorem digitChar_isDigit : ∀ m : Nat, m < 10 → (Nat.digitChar m).isDigit = true := by
  decide

theorem toDigitsCore_digits :
    ∀ (fuel n : Nat) (ds : List Char), (∀ c ∈ ds, c.isDigit = true) →
      ∀ c ∈ Nat.toDigitsCore 10 fuel n ds, c.isDigit = true := by
  intro fuel
  induction fuel with
  | zero =>
    intro n ds hds c hc
    exact hds c hc
  | succ fuel ih =>
    intro n ds hds c hc
    have hdigit : (Nat.digitChar (n % 10)).isDigit = true :=
      digitChar_isDigit _ (Nat.mod_lt _ (by decide))
    have hds' : ∀ c ∈ Nat.digitChar (n % 10) :: ds, c.isDigit = true := by
      intro d hdm
      rcases List.mem_cons.mp hdm with rfl | hdm
      · exact hdigit
      · exact hds d hdm
    rw [Nat.toDigitsCore] at hc
    by_cases h0 : n / 10 = 0
    · rw [if_pos h0] at hc
      exact hds' c hc
    · rw [if_neg h0] at hc
      exact ih (n / 10) _ hds' c hc

theorem toString_nat_digits (n : Nat) : ∀ c ∈ (toString n).data, c.isDigit = true := by
  intro c hc
  have hrepr : (toString n).data = Nat.toDigitsCore 10 (n + 1) n [] := rfl
  rw [hrepr] at hc
  exact toDigitsCore_digits (n + 1) n [] (by simp) c hc

/-- The canonical-port predicate really is a range claim. -/
theorem canonPortOk_denotes {s : String} (h : canonPortOk s = true) :
    ∃ n : Nat, n ≤ 65535 ∧ s = toString n := by
  simp only [canonPortOk, Bool.and_eq_true, decide_eq_true_eq] at h
  exact ⟨decDigitsVal s, h.2, h.1⟩

/-- A well-formed hex field decodes to the canonical rendering of a value
at most `65535`. -/
theorem jsParseIntHexDec_of_hexOk {hex : String} (h : hexOk hex = true) :
    ∃ n : Nat, n ≤ 65535 ∧ jsParseIntHexDec hex = toString n := by
  simp only [hexOk, Bool.and_eq_true, Bool.not_eq_true', List.isEmpty_eq_false,
    List.all_eq_true, decide_eq_true_eq] at h
  obtain ⟨⟨hne, hall⟩, hlen⟩ := h
  refine ⟨hexVal hex.data, ?_, ?_⟩
  · have h1 : hexVal hex.data < 16 ^ hex.data.length := hexVal_lt _
    have h2 : (16 : Nat) ^ hex.data.length ≤ 16 ^ 4 :=
      Nat.pow_le_pow_right (by norm_num) hlen
    have h3 : (16 : Nat) ^ 4 = 65536 := by norm_num
    omega
  · have hparse := jsParseIntHex_all_hex hex hne hall
    unfold jsParseIntHexDec
    rw [hparse]
    exact rfl

/-- Membership in the deduplicated union of the two table joins. -/
theorem mem_union_tables {env : LinuxEnv} {inodes : List String} {p : String} :
    p ∈ jsSetDedup (getPortsFromProcNet env.tcp inodes ++
        getPortsFromProcNet env.tcp6 inodes) ↔
      ∃ line ∈ tableDataLines env.tcp ++ tableDataLines env.tcp6,
        rowJoin inodes line = some p := by
  rw [mem_jsSetDedup, List.mem_append, mem_getPortsFromProcNet, mem_getPortsFromProcNet]
  constructor
  · rintro (⟨l, hl, hj⟩ | ⟨l, hl, hj⟩)
    · exact ⟨l, List.mem_append_left _ hl, hj⟩
    · exact ⟨l, List.mem_append_right _ hl, hj⟩
  · rintro ⟨l, hl, hj⟩
    rcases List.mem_append.mp hl with hl | hl
    · exact Or.inl ⟨l, hl, hj⟩
    · exact Or.inr ⟨l, hl, hj⟩

/-! ## The claims -/

/-- Claim C1 (Linux join correctness): whatever inode set phase 1 collects
from the process's descriptors, and whatever the connection tables contain,
the Linux path succeeds, and the ports it reports are without duplicates and
are exactly the decoded local-address ports of the data rows whose inode
field (index 9) belongs to the collected set — order-independent, with no
port derived from any non-matching row. -/
theorem linux_join_correctness (env : LinuxEnv) (inodes : List String)
    (h1 : getSocketInodesForPid env = .ok inodes) :
    ∃ res : Option (List String),
      findPortByPidLinux env = .ok res ∧ (res.getD []).Nodup ∧
      ∀ p, p ∈ res.getD [] ↔
        ∃ line ∈ tableDataLines env.tcp ++ tableDataLines env.tcp6,
          rowJoin inodes line = some p := by
  by_cases he : inodes.isEmpty = true
  · refine ⟨none, ?_, by simp, ?_⟩
    · unfold findPortByPidLinux
      rw [h1]
      simp [he]
    · intro p
      have hnil : inodes = [] := List.isEmpty_iff.mp he
      subst hnil
      simp only [Option.getD_none, List.not_mem_nil, false_iff]
      rintro ⟨line, -, hline⟩
      rw [rowJoin_nil] at hline
      cases hline
  · refine ⟨if (jsSetDedup (getPortsFromProcNet env.tcp inodes ++
        getPortsFromProcNet env.tcp6 inodes)).isEmpty then none
      else some (jsSetDedup (getPortsFromProcNet env.tcp inodes ++
        getPortsFromProcNet env.tcp6 inodes)), ?_, ?_, ?_⟩
    · unfold findPortByPidLinux
      rw [h1]
      simp [he]
    · split_ifs with hae
      · simp
      · simpa using nodup_jsSetDedup
    · intro p
      split_ifs with hae
      · have : jsSetDedup (getPortsFromProcNet env.tcp inodes ++
            getPortsFromProcNet env.tcp6 inodes) = [] := List.isEmpty_iff.mp hae
        simp only [Option.getD_none, List.not_mem_nil, false_iff]
        rw [← @mem_union_tables env inodes p, this]
        exact List.not_mem_nil p
      · simpa using @mem_union_tables env inodes p

/-- Claim C1 witness: on a fixture with inodes `{100, 200}`, two matching
rows and one non-matching row, the characterization holds concretely. -/
theorem linux_join_correctness_witness :
    getSocketInodesForPid envJoin = .ok ["100", "200"] ∧
    ∃ res : Option (List String),
      findPortByPidLinux envJoin = .ok res ∧ (res.getD []).Nodup ∧
      ∀ p, p ∈ res.getD [] ↔
        ∃ line ∈ tableDataLines envJoin.tcp ++ tableDataLines envJoin.tcp6,
          rowJoin ["100", "200"] line = some p :=
  ⟨by decide, linux_join_correctness envJoin ["100", "200"] (by decide)⟩

/-- Claim C2 (hex-to-decimal port decoding): any port reported for a matching
row is the hex text after the colon of the local-address field (index 1),
decoded base-16 and rendered as a decimal string; in particular the field
`0100007F:1F90` yields port text `1F90` decoding to `"8080"`, and
`0100007F:0016` yields `0016` decoding to `"22"`. -/
theorem hex_port_decoding (inodeSet : List String) (rawLine p : String)
    (h : rowJoin inodeSet rawLine = some p) :
    (∃ portHex, afterFirstColon ((jsSplitWs (jsTrim rawLine)).getD 1 "") = some portHex ∧
        p = jsParseIntHexDec portHex) ∧
    afterFirstColon "0100007F:1F90" = some "1F90" ∧
    afterFirstColon "0100007F:0016" = some "0016" ∧
    jsParseIntHexDec "1F90" = "8080" ∧
    jsParseIntHexDec "0016" = "22" :=
  ⟨rowJoin_inv h, by decide, by decide, by decide, by decide⟩

/-- Claim C2 witness: a concrete matching row with local address
`0100007F:1F90` produces exactly the port string `"8080"`. -/
theorem hex_port_decoding_witness :
    rowJoin ["100"] row8080 = some "8080" ∧
    ((∃ portHex, afterFirstColon ((jsSplitWs (jsTrim row8080)).getD 1 "") = some portHex ∧
        "8080" = jsParseIntHexDec portHex) ∧
      afterFirstColon "0100007F:1F90" = some "1F90" ∧
      afterFirstColon "0100007F:0016" = some "0016" ∧
      jsParseIntHexDec "1F90" = "8080" ∧
      jsParseIntHexDec "0016" = "22") :=
  ⟨by decide, hex_port_decoding ["100"] row8080 "8080" (by decide)⟩

/-- Claim C3 (macOS last-colon token scan): a port is reported iff some
whitespace-delimited token of some output line contributes it, where a token
contributes the text after its *last* colon, accepted only when it is all
decimal digits; in particular the line `TCP 127.0.0.1:3000 (LISTEN)` yields
exactly `"3000"`, and the token `::1:3000` also yields `"3000"`. -/
theorem macos_last_colon_scan :
    (∀ out p : String, p ∈ darwinScanPorts out ↔
        ∃ line ∈ jsSplitOnChar '\n' out, ∃ part ∈ jsSplitWs line,
          tokenPort part = some p) ∧
    (∀ part p : String, tokenPort part = some p →
        p = (jsSplitOnChar ':' part).getLastD "" ∧ p.data.all Char.isDigit = true) ∧
    tokenPort "::1:3000" = some "3000" ∧
    tokenPort "127.0.0.1:3000" = some "3000" ∧
    darwinScanPorts "TCP 127.0.0.1:3000 (LISTEN)" = ["3000"] :=
  ⟨fun _ _ => mem_darwinScanPorts, fun _ _ => tokenPort_inv, by decide, by decide, by decide⟩

/-- Claim C4 counterexample: the claimed range invariant fails as stated.
The code validates neither range nor format: a Windows run whose tool prints
the line `abc` yields the non-empty result `["abc"]`, and `"abc"` denotes no
integer in `[0, 65535]` at all. -/
theorem port_range_counterexample :
    findPortByPid 1 envWinAbc = .ok (some ["abc"]) ∧
    ¬ ∃ n : Nat, n ≤ 65535 ∧ "abc" = toString n := by
  refine ⟨by decide, ?_⟩
  rintro ⟨n, -, habc⟩
  have hmem : 'a' ∈ (toString n).data := by
    rw [← habc]
    decide
  have := toString_nat_digits n 'a' hmem
  exact absurd this (by decide)

/-- Claim C4 as amended: on inputs whose platform data is well formed — hex
port fields of at most four digits in the Linux tables, canonical decimal
port tokens at most `65535` in the Windows/macOS tool output — every port
string in a non-empty result denotes an integer in `[0, 65535]`. -/
theorem port_range_wellformed (pid : Rat) (env : HostEnv) (ports : List String)
    (p : String) (hok : envOk env = true)
    (hres : findPortByPid pid env = .ok (some ports)) (hp : p ∈ ports) :
    ∃ n : Nat, n ≤ 65535 ∧ p = toString n := by
  unfold findPortByPid at hres
  by_cases hv : ¬ pid.den = 1 ∨ pid ≤ 0
  · rw [if_pos hv] at hres
    cases hres
  rw [if_neg hv] at hres
  rcases env with ⟨plat, win, dar, lin⟩
  cases plat with
  | win32 =>
    simp only at hres
    simp only [envOk] at hok
    unfold windowsResolve at hres
    cases herr : win.error with
    | some m => rw [herr] at hres; cases hres
    | none =>
      rw [herr] at hres
      simp only at hres
      split_ifs at hres with h2 h3
      · cases hres
      · cases hres
      · have hports := Option.some.inj (Except.ok.inj hres)
        rw [← hports] at hp
        simp only [winExecOk, List.all_eq_true] at hok
        exact canonPortOk_denotes (hok p hp)
  | darwin =>
    simp only at hres
    simp only [envOk] at hok
    unfold darwinResolve at hres
    cases herr : dar.error with
    | some m => rw [herr] at hres; cases hres
    | none =>
      rw [herr] at hres
      simp only at hres
      split_ifs at hres with h2 h3
      · cases hres
      · cases hres
      · have hports := Option.some.inj (Except.ok.inj hres)
        rw [← hports] at hp
        obtain ⟨line, hline, part, hpart, htok⟩ := mem_darwinScanPorts.mp hp
        simp only [darwinExecOk, List.all_eq_true] at hok
        have hcanon := hok line hline part hpart
        rw [htok] at hcanon
        exact canonPortOk_denotes hcanon
  | linux =>
    simp only at hres
    simp only [envOk, linuxEnvOk, Bool.and_eq_true] at hok
    unfold findPortByPidLinux at hres
    cases hino : getSocketInodesForPid lin with
    | error m => rw [hino] at hres; cases hres
    | ok inodes =>
      rw [hino] at hres
      simp only at hres
      split_ifs at hres with h2 h3
      · cases hres
      · cases hres
      · have hports := Option.some.inj (Except.ok.inj hres)
        rw [← hports] at hp
        obtain ⟨line, hline, hjoin⟩ := mem_union_tables.mp hp
        obtain ⟨hex, hafc, hpdec⟩ := rowJoin_inv hjoin
        have hrow : rowHexOk line = true := by
          rcases List.mem_append.mp hline with hl | hl
          · have htab := hok.1
            simp only [tableOk, List.all_eq_true] at htab
            exact htab line hl
          · have htab := hok.2
            simp only [tableOk, List.all_eq_true] at htab
            exact htab line hl
        have hhex : hexOk hex = true := by
          simp only [rowHexOk, hafc] at hrow
          exact hrow
        obtain ⟨n, hn, hdec⟩ := jsParseIntHexDec_of_hexOk hhex
        exact ⟨n, hn, by rw [hpdec, hdec]⟩
  | other name =>
    simp only at hres
    cases hres

/-- Claim C4 witness: a well-formed Windows run returning `["8080"]` denotes
a port in range. -/
theorem port_range_wellformed_witness :
    envOk envWin8080 = true ∧
    findPortByPid 1 envWin8080 = .ok (some ["8080"]) ∧
    ∃ n : Nat, n ≤ 65535 ∧ "8080" = toString n :=
  ⟨by decide, by decide,
   port_range_wellformed 1 envWin8080 ["8080"] "8080" (by decide) (by decide)
     (by decide)⟩

/-- Claim C5 counterexample: the deduplication claim fails on the Windows
path, which returns the tool's lines verbatim: output `80\n80` produces
`["80", "80"]`, which contains a duplicate. -/
theorem dedup_counterexample :
    findPortByPid 1 envWinDup = .ok (some ["80", "80"]) ∧
    ¬ (["80", "80"] : List String).Nodup :=
  ⟨by decide, by decide⟩

/-- Claim C5 as amended: on the macOS and Linux paths the returned collection
contains no duplicate port strings (so two table rows with the same inode and
port contribute one entry, and the deduplicated IPv4/IPv6 union stays
duplicate-free); the Windows path returns the tool's lines as-is. -/
theorem dedup_on_darwin_linux (pid : Rat) (env : HostEnv) (ports : List String)
    (hplat : env.plat = .darwin ∨ env.plat = .linux)
    (hres : findPortByPid pid env = .ok (some ports)) :
    ports.Nodup := by
  unfold findPortByPid at hres
  by_cases hv : ¬ pid.den = 1 ∨ pid ≤ 0
  · rw [if_pos hv] at hres
    cases hres
  rw [if_neg hv] at hres
  rcases env with ⟨plat, win, dar, lin⟩
  simp only at hplat
  rcases hplat with rfl | rfl
  · simp only at hres
    unfold darwinResolve at hres
    cases herr : dar.error with
    | some m => rw [herr] at hres; cases hres
    | none =>
      rw [herr] at hres
      simp only at hres
      split_ifs at hres with h2 h3
      · cases hres
      · cases hres
      · have hports := Option.some.inj (Except.ok.inj hres)
        rw [← hports]
        exact nodup_darwinScanPorts
  · simp only at hres
    unfold findPortByPidLinux at hres
    cases hino : getSocketInodesForPid lin with
    | error m => rw [hino] at hres; cases hres
    | ok inodes =>
      rw [hino] at hres
      simp only at hres
      split_ifs at hres with h2 h3
      · cases hres
      · cases hres
      · have hports := Option.some.inj (Except.ok.inj hres)
        rw [← hports]
        exact nodup_jsSetDedup

/-- Claim C5 witness: a macOS run whose two lines carry the same port returns
that port once. -/
theorem dedup_on_darwin_linux_witness :
    findPortByPid 3 envDarwinDup = .ok (some ["80"]) ∧
    (["80"] : List String).Nodup :=
  ⟨by decide, dedup_on_darwin_linux 3 envDarwinDup ["80"] (Or.inl rfl) (by decide)⟩

/-- Claim C6 (Linux error-propagation split): a failure to list the
descriptor directory propagates as an error out of the Linux path, while a
failure to resolve an individual descriptor is skipped: phase 1 still
succeeds, and the collected set consists exactly of the inodes of the
resolvable socket descriptors. -/
theorem linux_error_split (env : LinuxEnv) :
    (∀ msg, env.fdList = .error msg →
      findPortByPidLinux env =
        .error ("Error reading Linux network info: Unable to read fd directory: " ++ msg)) ∧
    (∀ files, env.fdList = .ok files →
      ∃ inodes, getSocketInodesForPid env = .ok inodes ∧ inodes.Nodup ∧
        ∀ s, s ∈ inodes ↔ ∃ f ∈ files, fdInode env f = some s) := by
  constructor
  · intro msg hmsg
    unfold findPortByPidLinux getSocketInodesForPid
    rw [hmsg]
    have hlit : ("Error reading Linux network info: " ++
        "Unable to read fd directory: " : String) =
        "Error reading Linux network info: Unable to read fd directory: " := rfl
    rw [← hlit, String.append_assoc]
  · intro files hfiles
    refine ⟨collectDedup (fdInode env) files [], ?_,
      nodup_collectDedup List.nodup_nil, ?_⟩
    · unfold getSocketInodesForPid
      rw [hfiles]
    · intro s
      rw [mem_collectDedup]
      simp

/-- Claim C6 witness: a fixture whose descriptor directory fails with `boom`
produces the propagated error, and a fixture with one failing and two
resolvable descriptors collects exactly the two socket inodes. -/
theorem linux_error_split_witness :
    findPortByPidLinux envFdErr =
      .error "Error reading Linux network info: Unable to read fd directory: boom" ∧
    ∃ inodes, getSocketInodesForPid envJoin = .ok inodes ∧ inodes.Nodup ∧
      ∀ s, s ∈ inodes ↔ ∃ f ∈ ["0", "1", "2"], fdInode envJoin f = some s :=
  ⟨(linux_error_split envFdErr).1 "boom" rfl,
   (linux_error_split envJoin).2 ["0", "1", "2"] rfl⟩

/-- Claim C7 (missing connection table): an unreadable table contributes zero
records and raises no error, and the Linux result is then exactly the other
table's (already deduplicated) matches. -/
theorem missing_table_ignored (env : LinuxEnv) (inodes : List String)
    (h6 : env.tcp6 = none) (h1 : getSocketInodesForPid env = .ok inodes)
    (hne : inodes ≠ []) :
    getPortsFromProcNet none inodes = [] ∧
    findPortByPidLinux env =
      .ok (if getPortsFromProcNet env.tcp inodes = [] then none
           else some (getPortsFromProcNet env.tcp inodes)) := by
  refine ⟨rfl, ?_⟩
  unfold findPortByPidLinux
  rw [h1]
  have hemp : inodes.isEmpty = false := by
    rcases inodes with _ | ⟨x, xs⟩
    · exact absurd rfl hne
    · rfl
  have hdedup : jsSetDedup (getPortsFromProcNet env.tcp inodes ++
      getPortsFromProcNet env.tcp6 inodes) = getPortsFromProcNet env.tcp inodes := by
    rw [h6]
    show jsSetDedup (getPortsFromProcNet env.tcp inodes ++ []) = _
    rw [List.append_nil]
    exact jsSetDedup_eq_self nodup_getPortsFromProcNet
  simp [hemp, hdedup, List.isEmpty_iff]

/-- Claim C7 witness: with one socket inode, one matching IPv4 row and no
IPv6 table, the call still returns the IPv4 port. -/
theorem missing_table_ignored_witness :
    getPortsFromProcNet none ["100"] = [] ∧
    findPortByPidLinux envNoTcp6 =
      .ok (if getPortsFromProcNet envNoTcp6.tcp ["100"] = [] then none
           else some (getPortsFromProcNet envNoTcp6.tcp ["100"])) :=
  missing_table_ignored envNoTcp6 ["100"] rfl (by decide) (by decide)

/-- Claim C8 (macOS failure policy): an exec failure on the macOS path
resolves to the empty marker rather than an error, whereas the same failure
on the Windows path is surfaced as an error carrying the diagnostic text
(`stderr`, falling back to the error message when `stderr` is blank). -/
theorem macos_failure_policy (msg out errText : String) :
    darwinResolve { error := some msg, stdout := out, stderr := errText } = .ok none ∧
    windowsResolve { error := some msg, stdout := out, stderr := errText } =
      .error (if errText = "" then msg else errText) :=
  ⟨rfl, rfl⟩

/-- Claim C9 (input validation): a pid that is not a positive integer is
rejected with `Invalid PID` regardless of the host environment — no platform
facility is consulted. -/
theorem invalid_pid_rejected (pid : Rat) (env : HostEnv)
    (h : ¬ pid.den = 1 ∨ pid ≤ 0) :
    findPortByPid pid env = .error "Invalid PID" := by
  unfold findPortByPid
  rw [if_pos h]

/-- Claim C9 witness: `-3` and the non-integer `1/2` are both rejected. -/
theorem invalid_pid_rejected_witness :
    findPortByPid (-3) envPlain = .error "Invalid PID" ∧
    findPortByPid (Rat.mk' 1 2 (by decide) (Nat.coprime_one_left 2)) envPlain =
      .error "Invalid PID" :=
  ⟨invalid_pid_rejected (-3) envPlain (by decide),
   invalid_pid_rejected (Rat.mk' 1 2 (by decide) (Nat.coprime_one_left 2)) envPlain
     (by decide)⟩

/-- Claim C10 (return shape): a successful call never returns an empty list:
the result is either the empty marker (`null`) or a non-empty list. -/
theorem result_never_empty_list (pid : Rat) (env : HostEnv) (ports : List String)
    (h : findPortByPid pid env = .ok (some ports)) : ports ≠ [] := by
  unfold findPortByPid at h
  by_cases hv : ¬ pid.den = 1 ∨ pid ≤ 0
  · rw [if_pos hv] at h
    cases h
  rw [if_neg hv] at h
  rcases env with ⟨plat, win, dar, lin⟩
  cases plat with
  | win32 =>
    simp only at h
    unfold windowsResolve at h
    cases herr : win.error with
    | some m => rw [herr] at h; cases h
    | none =>
      rw [herr] at h
      simp only at h
      split_ifs at h with h2 h3
      · cases h
      · cases h
      · have hports := Option.some.inj (Except.ok.inj h)
        intro hnil
        rw [hports, hnil] at h3
        exact h3 rfl
  | darwin =>
    simp only at h
    unfold darwinResolve at h
    cases herr : dar.error with
    | some m => rw [herr] at h; cases h
    | none =>
      rw [herr] at h
      simp only at h
      split_ifs at h with h2 h3
      · cases h
      · cases h
      · have hports := Option.some.inj (Except.ok.inj h)
        intro hnil
        rw [hports, hnil] at h3
        exact h3 rfl
  | linux =>
    simp only at h
    unfold findPortByPidLinux at h
    cases hino : getSocketInodesForPid lin with
    | error m => rw [hino] at h; cases h
    | ok inodes =>
      rw [hino] at h
      simp only at h
      split_ifs at h with h2 h3
      · cases h
      · cases h
      · have hports := Option.some.inj (Except.ok.inj h)
        intro hnil
        rw [hports, hnil] at h3
        exact h3 rfl
  | other name =>
    simp only at h
    cases h

/-- Claim C10 witness: a successful macOS call returning `["3000"]` is indeed
non-empty. -/
theorem result_never_empty_list_witness :
    findPortByPid 2 envDarwinListen = .ok (some ["3000"]) ∧
    (["3000"] : List String) ≠ [] :=
  ⟨by decide, result_never_empty_list 2 envDarwinListen ["3000"] (by decide)⟩

end FindPortByPid
